import Mathlib

/-!
Verification of the process/memory/scheduling core of a small teaching OS kernel
(rCore-style). The definitions below are a shallow embedding of the Rust sources:

* `src/os/src/task/manager.rs` — the stride-scheduling `TaskManager` (`add`, `fetch`);
* `src/os/src/syscall/process.rs` — the process-management syscalls
  (`sys_mmap`, `sys_munmap`, `sys_waitpid`, `sys_set_priority`, `sys_fork`,
  `sys_task_info`).

Machine integers (`usize`, `isize`, `i32`, `u32`) are embedded as `Nat` / `Int`.
Collaborator code that the repository calls but whose source is not part of the
two files above (the `mm` address-space primitives, `TaskControlBlock::fork`,
configuration constants) is modelled from the specification and is marked
`Modelled from the spec:` in its doc comment.
-/

/-- Modelled from the spec: `config::PAGE_SIZE` (the spec fixes the page size to a
power of two, e.g. 4096; the `config` module is not among the sources). -/
def PAGE_SIZE : Nat := 4096

/-- Modelled from the spec: `config::BIG_STRIDE`, the large constant whose quotient by
the priority gives a task's pass. The spec fixes no concrete value; the claims below
hold for any positive constant. -/
def BIG_STRIDE : Nat := 0x10000

/-- The fields of a `TaskControlBlock` (together with its inner, exclusively-accessed
state) that the claims under verification depend on: the process id, the stride
scheduling fields `stride`, `prio`, `pass`, and the saved trap context register file
(`trap_cx.x`, 32 machine words, slot 10 being the syscall return-value slot). -/
structure TaskControlBlock where
  pid : Nat
  stride : Nat
  prio : Nat
  pass : Nat
  trap_cx : List Nat
deriving Repr, DecidableEq

/-- `TaskManager::add`: push the task at the back of the ready queue. -/
def TaskManager.add (ready_queue : List TaskControlBlock) (task : TaskControlBlock) :
    List TaskControlBlock :=
  ready_queue ++ [task]

/-- The scan loop of `TaskManager::fetch` (`for i in 1..self.ready_queue.len()`),
embedded structurally on the unscanned suffix of the queue. `i` is the index of the
head of `rest` in the full queue; `index`, `ret` and `minStride` are the loop-carried
variables of the Rust code: the index of the current best task, the task itself, and
its stride. A later task replaces the current best when its stride equals `minStride`
and its priority is strictly greater, or when its stride is strictly smaller. -/
def fetchScan : List TaskControlBlock → Nat → Nat → TaskControlBlock → Nat →
    Nat × TaskControlBlock × Nat
  | [], _, index, ret, minStride => (index, ret, minStride)
  | tcb :: rest, i, index, ret, minStride =>
    if tcb.stride = minStride ∧ ret.prio < tcb.prio then
      fetchScan rest (i + 1) i tcb minStride
    else if tcb.stride < minStride then
      fetchScan rest (i + 1) i tcb tcb.stride
    else
      fetchScan rest (i + 1) index ret minStride

/-- `TaskManager::fetch`: on the empty queue return `None`; otherwise scan for the
task with minimum stride (ties broken towards strictly greater priority), remove it
from the queue, advance its stride by its own pass, and return it. The pair returned
here is (returned task, ready queue after the call). -/
def TaskManager.fetch : List TaskControlBlock → Option TaskControlBlock × List TaskControlBlock
  | [] => (none, [])
  | t0 :: rest =>
    match fetchScan rest 1 0 t0 t0.stride with
    | (index, ret, minStride) =>
      (some { ret with stride := minStride + ret.pass }, (t0 :: rest).eraseIdx index)

/-- Loop invariant of the scan in `TaskManager::fetch`. `pre` is the already-scanned
prefix of the queue, so the loop counter equals `pre.length`: if the loop-carried
variables describe the best task of `pre` (its position, itself, its stride, the
minimality of its stride over `pre` and the maximality of its priority among the
minimum-stride tasks of `pre`), then the scan's final state describes the best task of
the whole queue `pre ++ rest`. -/
theorem fetchScan_spec (rest : List TaskControlBlock) :
    ∀ (pre : List TaskControlBlock) (index : Nat) (ret : TaskControlBlock) (ms : Nat)
      (index' : Nat) (ret' : TaskControlBlock) (ms' : Nat),
      fetchScan rest pre.length index ret ms = (index', ret', ms') →
      pre[index]? = some ret →
      ms = ret.stride →
      (∀ u ∈ pre, ms ≤ u.stride) →
      (∀ u ∈ pre, u.stride = ms → u.prio ≤ ret.prio) →
      (pre ++ rest)[index']? = some ret' ∧
      ms' = ret'.stride ∧
      (∀ u ∈ pre ++ rest, ms' ≤ u.stride) ∧
      (∀ u ∈ pre ++ rest, u.stride = ms' → u.prio ≤ ret'.prio) := by
  induction rest with
  | nil =>
    intro pre index ret ms index' ret' ms' heq h1 h2 h3 h4
    rw [fetchScan] at heq
    obtain ⟨rfl, rfl, rfl⟩ := Prod.mk.injEq .. ▸ heq
    simp only [List.append_nil]
    refine ⟨h1, ?_, h3, h4⟩
    · cases heq
      exact h2
  | cons tcb rest ih =>
    intro pre index ret ms index' ret' ms' heq h1 h2 h3 h4
    rw [fetchScan] at heq
    have hcons : pre ++ tcb :: rest = (pre ++ [tcb]) ++ rest := by simp
    have hlen : pre.length + 1 = (pre ++ [tcb]).length := by simp
    split at heq
    case isTrue hA =>
      rw [hlen] at heq
      rw [hcons]
      refine ih (pre ++ [tcb]) pre.length tcb ms index' ret' ms' heq ?_ hA.1.symm ?_ ?_
      · exact List.getElem?_concat_length pre tcb
      · intro u hu
        rcases List.mem_append.mp hu with h | h
        · exact h3 u h
        · rw [List.mem_singleton.mp h, hA.1]
      · intro u hu hstride
        rcases List.mem_append.mp hu with h | h
        · exact le_of_lt (lt_of_le_of_lt (h4 u h hstride) hA.2)
        · rw [List.mem_singleton.mp h]
    case isFalse hA =>
      split at heq
      case isTrue hB =>
        rw [hlen] at heq
        rw [hcons]
        refine ih (pre ++ [tcb]) pre.length tcb tcb.stride index' ret' ms' heq ?_ rfl ?_ ?_
        · exact List.getElem?_concat_length pre tcb
        · intro u hu
          rcases List.mem_append.mp hu with h | h
          · exact le_of_lt (lt_of_lt_of_le hB (h3 u h))
          · rw [List.mem_singleton.mp h]
        · intro u hu hstride
          rcases List.mem_append.mp hu with h | h
          · exact absurd (lt_of_le_of_lt (hstride ▸ h3 u h) hB) (lt_irrefl _)
          · rw [List.mem_singleton.mp h]
      case isFalse hB =>
        rw [hlen] at heq
        rw [hcons]
        have hidx : index < pre.length := (List.getElem?_eq_some.mp h1).1
        refine ih (pre ++ [tcb]) index ret ms index' ret' ms' heq ?_ h2 ?_ ?_
        · rw [List.getElem?_append_left hidx]
          exact h1
        · intro u hu
          rcases List.mem_append.mp hu with h | h
          · exact h3 u h
          · rw [List.mem_singleton.mp h]
            exact Nat.not_lt.mp hB
        · intro u hu hstride
          rcases List.mem_append.mp hu with h | h
          · exact h4 u h hstride
          · rw [List.mem_singleton.mp h]
            by_contra hlt
            exact hA ⟨List.mem_singleton.mp h ▸ hstride, Nat.not_le.mp hlt⟩

/-- Claim C1: for every non-empty ready collection, `TaskManager::fetch` removes and
returns the task whose stride is minimal over the whole queue, breaking a stride tie
by selecting the task with the strictly greater priority (so the selected task's
priority is maximal among the minimum-stride tasks), and before returning it sets
that task's stride to its old stride plus its own pass. -/
theorem fetch_min_stride (q : List TaskControlBlock) (h : q ≠ []) :
    ∃ i t, q[i]? = some t ∧
      TaskManager.fetch q = (some { t with stride := t.stride + t.pass }, q.eraseIdx i) ∧
      (∀ u ∈ q, t.stride ≤ u.stride) ∧
      (∀ u ∈ q, u.stride = t.stride → u.prio ≤ t.prio) := by
  match q, h with
  | t0 :: rest, _ =>
    rcases heq : fetchScan rest 1 0 t0 t0.stride with ⟨index', ret', ms'⟩
    have hspec :=
      fetchScan_spec rest [t0] 0 t0 t0.stride index' ret' ms' heq (by simp) rfl
        (by simp) (by simp)
    rw [List.singleton_append] at hspec
    obtain ⟨h1, h2, h3, h4⟩ := hspec
    refine ⟨index', ret', h1, ?_, by rw [← h2]; exact h3, by rw [← h2]; exact h4⟩
    show TaskManager.fetch (t0 :: rest) = _
    rw [TaskManager.fetch, heq, h2]

/-- Claim C1 witness: on a concrete three-task queue, `fetch` selects the minimum-stride,
maximum-priority task, removes it and advances its stride by its own pass. -/
theorem fetch_min_stride_witness :
    ∃ i t,
      ([⟨1, 7, 16, 10, []⟩, ⟨2, 3, 16, 20, []⟩, ⟨3, 3, 17, 30, []⟩] :
          List TaskControlBlock)[i]? = some t ∧
      TaskManager.fetch [⟨1, 7, 16, 10, []⟩, ⟨2, 3, 16, 20, []⟩, ⟨3, 3, 17, 30, []⟩] =
        (some { t with stride := t.stride + t.pass },
         ([⟨1, 7, 16, 10, []⟩, ⟨2, 3, 16, 20, []⟩, ⟨3, 3, 17, 30, []⟩] :
            List TaskControlBlock).eraseIdx i) ∧
      (∀ u ∈ ([⟨1, 7, 16, 10, []⟩, ⟨2, 3, 16, 20, []⟩, ⟨3, 3, 17, 30, []⟩] :
          List TaskControlBlock), t.stride ≤ u.stride) ∧
      (∀ u ∈ ([⟨1, 7, 16, 10, []⟩, ⟨2, 3, 16, 20, []⟩, ⟨3, 3, 17, 30, []⟩] :
          List TaskControlBlock), u.stride = t.stride → u.prio ≤ t.prio) :=
  fetch_min_stride [⟨1, 7, 16, 10, []⟩, ⟨2, 3, 16, 20, []⟩, ⟨3, 3, 17, 30, []⟩]
    (by decide)

/-- Claim C2: `fetch` on the empty ready collection returns nothing and leaves the
collection unchanged (still empty), so any number of repeated `fetch` calls keeps the
collection empty and each call keeps returning nothing until `add` is called. -/
theorem fetch_empty_idempotent :
    TaskManager.fetch [] = (none, ([] : List TaskControlBlock)) ∧
    ∀ n : Nat,
      (fun q : List TaskControlBlock => (TaskManager.fetch q).2)^[n] [] =
        ([] : List TaskControlBlock) := by
  refine ⟨rfl, ?_⟩
  intro n
  induction n with
  | zero => rfl
  | succ k ih => rw [Function.iterate_succ_apply]; exact ih

/-- Modelled from the spec: `VirtAddr::aligned` — `start` is page-aligned. -/
def vaAligned (a : Nat) : Prop := a % PAGE_SIZE = 0

instance (a : Nat) : Decidable (vaAligned a) :=
  inferInstanceAs (Decidable (a % PAGE_SIZE = 0))

/-- Modelled from the spec (glossary: VPN = address divided by the page size):
`VirtAddr::floor`, the number of the page containing the address. -/
def vaFloor (a : Nat) : Nat := a / PAGE_SIZE

/-- Modelled from the spec: `VirtAddr::ceil`, the number of the first page boundary at
or after the address. -/
def vaCeil (a : Nat) : Nat := (a + PAGE_SIZE - 1) / PAGE_SIZE

/-- The permission flags of a mapped area, drawn from
Readable / Writable / Executable / UserAccessible (`MapPermission` bits R, W, X, U). -/
structure MapPermission where
  r : Bool
  w : Bool
  x : Bool
  u : Bool
deriving Repr, DecidableEq

/-- A page-table entry: a validity bit and the permission flags. -/
structure PageTableEntry where
  valid : Bool
  perm : MapPermission
deriving Repr, DecidableEq

/-- The address space of one process, reduced to what the claims depend on: the page
table, as a finite association of virtual page numbers to page-table entries (the
first binding of a vpn is the authoritative one). -/
structure MemorySet where
  ptes : List (Nat × PageTableEntry)
deriving Repr, DecidableEq

/-- `PageTable::translate`: read-only lookup of a virtual page number; `none` when the
page has no entry at all. -/
def MemorySet.translate (memory_set : MemorySet) (vpn : Nat) : Option PageTableEntry :=
  memory_set.ptes.lookup vpn

/-- Modelled from the spec: `current_insert_area` / `MemorySet::insert_framed_area` —
creates a page-table entry for every page of the page-rounded range
`[vaFloor start, vaCeil end_)`, valid and carrying the given permissions. -/
def MemorySet.insert_area (memory_set : MemorySet) (start end_ : Nat)
    (perm : MapPermission) : MemorySet :=
  { ptes :=
      ((List.range' (vaFloor start) (vaCeil end_ - vaFloor start)).map
        (fun vpn => (vpn, ⟨true, perm⟩))) ++ memory_set.ptes }

/-- Modelled from the spec: `current_shrink_area` / `MemorySet::shrink_area` — unmaps
every page-table entry whose page lies inside the page-rounded range
`[vaFloor start, vaCeil end_)`. -/
def MemorySet.shrink_area (memory_set : MemorySet) (start end_ : Nat) : MemorySet :=
  { ptes :=
      memory_set.ptes.filter
        (fun p => decide ¬(vaFloor start ≤ p.1 ∧ p.1 < vaCeil end_)) }

/-- The test `pte.is_some() && pte.unwrap().is_valid()` applied by the scan loops of
`sys_mmap` and `sys_munmap` to one translated page. -/
def pteIsValid : Option PageTableEntry → Bool
  | some pte => pte.valid
  | none => false

/-- The page numbers visited by the scan loops of `sys_mmap` / `sys_munmap`: the floor
of each address `start + k * PAGE_SIZE` with `start + k * PAGE_SIZE < start + len`. -/
def scanPages (start len : Nat) : List Nat :=
  (List.range ((len + PAGE_SIZE - 1) / PAGE_SIZE)).map
    (fun k => (start + k * PAGE_SIZE) / PAGE_SIZE)

/-- The conflict scan of `sys_mmap`: some page of the range is already validly mapped. -/
def anyMappedValid (memory_set : MemorySet) (vpns : List Nat) : Bool :=
  vpns.any (fun vpn => pteIsValid (memory_set.translate vpn))

/-- The validity scan of `sys_munmap`: some page of the range is unmapped or invalid
(`pte.is_none() || !pte.unwrap().is_valid()`). -/
def anyNotMappedValid (memory_set : MemorySet) (vpns : List Nat) : Bool :=
  vpns.any (fun vpn => !pteIsValid (memory_set.translate vpn))

/-- The permission flags derived from the `port` argument of `sys_mmap`:
bit 0 → Readable, bit 1 → Writable, bit 2 → Executable, UserAccessible always set. -/
def portToPerm (port : Nat) : MapPermission :=
  { r := decide (port &&& 1 ≠ 0)
    w := decide (port &&& 2 ≠ 0)
    x := decide (port &&& 4 ≠ 0)
    u := true }

/-- `sys_mmap(start, len, port)` acting on the current task's address space. In the
Rust source `port & !0x7` masks `port` with the usize complement of 7, written here as
the 64-bit constant `0xFFFFFFFFFFFFFFF8`. Returns the pair
(syscall return value, address space after the call). -/
def sys_mmap (start len port : Nat) (memory_set : MemorySet) : Int × MemorySet :=
  if len = 0 then (0, memory_set)
  else if port &&& 0xFFFFFFFFFFFFFFF8 ≠ 0 ∨ port &&& 0x7 = 0 ∨ ¬ vaAligned start then
    (-1, memory_set)
  else if anyMappedValid memory_set (scanPages start len) then (-1, memory_set)
  else (0, memory_set.insert_area start (start + len) (portToPerm port))

/-- `sys_munmap(start, len)` acting on the current task's address space. Returns the
pair (syscall return value, address space after the call). -/
def sys_munmap (start len : Nat) (memory_set : MemorySet) : Int × MemorySet :=
  if ¬ vaAligned start then (-1, memory_set)
  else if anyNotMappedValid memory_set (scanPages start len) then (-1, memory_set)
  else (0, memory_set.shrink_area start (start + len))

/-- A page that is already validly mapped in the address space (the condition the
`sys_mmap` pre-scan rejects on). -/
def MappedValid (memory_set : MemorySet) (vpn : Nat) : Prop :=
  ∃ pte, memory_set.translate vpn = some pte ∧ pte.valid = true

theorem pteIsValid_iff (o : Option PageTableEntry) :
    pteIsValid o = true ↔ ∃ pte, o = some pte ∧ pte.valid = true := by
  cases o with
  | none => simp [pteIsValid]
  | some pte => simp [pteIsValid]

theorem anyMappedValid_iff (memory_set : MemorySet) (vpns : List Nat) :
    anyMappedValid memory_set vpns = true ↔ ∃ vpn ∈ vpns, MappedValid memory_set vpn := by
  rw [anyMappedValid, List.any_eq_true]
  constructor
  · rintro ⟨vpn, hmem, hv⟩
    exact ⟨vpn, hmem, (pteIsValid_iff _).mp hv⟩
  · rintro ⟨vpn, hmem, hv⟩
    exact ⟨vpn, hmem, (pteIsValid_iff _).mpr hv⟩

theorem anyNotMappedValid_iff (memory_set : MemorySet) (vpns : List Nat) :
    anyNotMappedValid memory_set vpns = true ↔
      ∃ vpn ∈ vpns, ¬ MappedValid memory_set vpn := by
  rw [anyNotMappedValid, List.any_eq_true]
  constructor
  · rintro ⟨vpn, hmem, hv⟩
    refine ⟨vpn, hmem, fun hmv => ?_⟩
    rw [Bool.not_eq_true', ← Bool.not_eq_true] at hv
    exact hv ((pteIsValid_iff _).mpr hmv)
  · rintro ⟨vpn, hmem, hv⟩
    refine ⟨vpn, hmem, ?_⟩
    rw [Bool.not_eq_true', ← Bool.not_eq_true]
    intro hb
    exact hv ((pteIsValid_iff _).mp hb)

theorem scanPages_eq_range' (start len : Nat) (ha : vaAligned start) :
    scanPages start len =
      List.range' (vaFloor start) (vaCeil (start + len) - vaFloor start) := by
  have ha' : start % PAGE_SIZE = 0 := ha
  obtain ⟨q, rfl⟩ := Nat.dvd_of_mod_eq_zero ha'
  have hP : 0 < PAGE_SIZE := by decide
  have hfloor : vaFloor (PAGE_SIZE * q) = q := by
    rw [vaFloor, Nat.mul_div_cancel_left _ hP]
  have hceil : vaCeil (PAGE_SIZE * q + len) = q + (len + PAGE_SIZE - 1) / PAGE_SIZE := by
    rw [vaCeil,
      show PAGE_SIZE * q + len + PAGE_SIZE - 1 = PAGE_SIZE * q + (len + PAGE_SIZE - 1) by
        omega,
      Nat.mul_add_div hP]
  rw [scanPages, hfloor, hceil, Nat.add_sub_cancel_left, List.range'_eq_map_range]
  refine List.map_congr_left ?_
  intro k _
  rw [show PAGE_SIZE * q + k * PAGE_SIZE = PAGE_SIZE * (q + k) by ring,
    Nat.mul_div_cancel_left _ hP]

theorem lookup_append_left {l1 l2 : List (Nat × PageTableEntry)} {k : Nat}
    {v : PageTableEntry} (h : List.lookup k l1 = some v) :
    List.lookup k (l1 ++ l2) = some v := by
  induction l1 with
  | nil => exact absurd h (by simp)
  | cons p tl ih =>
    rcases p with ⟨a, b⟩
    rw [List.cons_append, List.lookup_cons] at *
    rcases hk : k == a with _ | _
    · rw [hk] at h
      exact ih h
    · rw [hk] at h
      exact h

theorem lookup_range'_map (n : Nat) (pte : PageTableEntry) :
    ∀ (s k : Nat),
      List.lookup k ((List.range' s n).map (fun vpn => (vpn, pte))) =
        if s ≤ k ∧ k < s + n then some pte else none := by
  induction n with
  | zero =>
    intro s k
    rw [if_neg (by omega)]
    rfl
  | succ m ih =>
    intro s k
    rw [List.range'_succ, List.map_cons, List.lookup_cons]
    rcases hk : k == s with _ | _
    · have hne : ¬ k = s := by simpa using hk
      show List.lookup k ((List.range' (s + 1) m).map (fun vpn => (vpn, pte))) = _
      rw [ih (s + 1) k]
      by_cases hcond : s + 1 ≤ k ∧ k < s + 1 + m
      · rw [if_pos hcond, if_pos (by omega)]
      · have hneg : ¬(s ≤ k ∧ k < s + (m + 1)) := by
          intro hc
          exact hcond ⟨by omega, by omega⟩
        rw [if_neg hcond, if_neg hneg]
    · have hks : k = s := by simpa using hk
      rw [if_pos (by omega)]

theorem lookup_filter_none (s e k : Nat) (h1 : s ≤ k) (h2 : k < e)
    (l : List (Nat × PageTableEntry)) :
    List.lookup k (l.filter (fun p => decide ¬(s ≤ p.1 ∧ p.1 < e))) = none := by
  induction l with
  | nil => rfl
  | cons p tl ih =>
    rcases p with ⟨a, b⟩
    rw [List.filter_cons]
    by_cases hkeep : s ≤ a ∧ a < e
    · rw [if_neg (by simpa using hkeep)]
      exact ih
    · rw [if_pos (decide_eq_true hkeep), List.lookup_cons]
      have hne : ¬ k = a := fun hka => hkeep ⟨hka ▸ h1, hka ▸ h2⟩
      rw [show (k == a) = false by simpa using hne]
      exact ih

theorem translate_insert_area (memory_set : MemorySet) (start end_ vpn : Nat)
    (perm : MapPermission) (h1 : vaFloor start ≤ vpn) (h2 : vpn < vaCeil end_) :
    (memory_set.insert_area start end_ perm).translate vpn =
      some { valid := true, perm := perm } := by
  rw [MemorySet.translate, MemorySet.insert_area]
  refine lookup_append_left ?_
  rw [lookup_range'_map, if_pos (by omega)]

theorem translate_shrink_area (memory_set : MemorySet) (start end_ vpn : Nat)
    (h1 : vaFloor start ≤ vpn) (h2 : vpn < vaCeil end_) :
    (memory_set.shrink_area start end_).translate vpn = none := by
  rw [MemorySet.translate, MemorySet.shrink_area]
  exact lookup_filter_none (vaFloor start) (vaCeil end_) vpn h1 h2 _

/-- Claim C10: `sys_mmap(start, 0, port)` returns 0 and does not mutate the address
space, for every `start` and every `port` — the `len == 0` early return precedes all
argument validation, so even a malformed `port` or a misaligned `start` yields
success when `len == 0`. -/
theorem sys_mmap_len_zero_bypasses_checks (start port : Nat) (memory_set : MemorySet) :
    sys_mmap start 0 port memory_set = (0, memory_set) := by
  rw [sys_mmap, if_pos rfl]

/-- Claim C3 counterexample: `port = 8` has bit 3 set, yet `sys_mmap(0, 0, 8)` on the
empty address space returns 0, not -1 — the claim fails when `len = 0`. -/
theorem sys_mmap_invalid_port_cex :
    ((8 : Nat) &&& 0xFFFFFFFFFFFFFFF8 ≠ 0) ∧
    sys_mmap 0 0 8 { ptes := [] } ≠ (-1, ({ ptes := [] } : MemorySet)) := by
  decide

/-- Claim C3 (amended): for every `start`, every `len ≠ 0`, and every `port` such that
`port` has a bit at position 3 or above set (`port & !0x7 != 0`) or `port & 0x7 == 0`,
`sys_mmap(start, len, port)` returns -1 and leaves the address space unchanged. (The
original claim also covered `len = 0`, where the `len == 0` early return yields 0
instead.) -/
theorem sys_mmap_invalid_port (start len port : Nat) (memory_set : MemorySet)
    (hlen : len ≠ 0)
    (hport : port &&& 0xFFFFFFFFFFFFFFF8 ≠ 0 ∨ port &&& 0x7 = 0) :
    sys_mmap start len port memory_set = (-1, memory_set) := by
  have hc : port &&& 0xFFFFFFFFFFFFFFF8 ≠ 0 ∨ port &&& 0x7 = 0 ∨ ¬ vaAligned start := by
    rcases hport with h | h
    · exact Or.inl h
    · exact Or.inr (Or.inl h)
  rw [sys_mmap, if_neg hlen, if_pos hc]

/-- Claim C3 witness: `port = 9` (bit 3 set) with `len = 4096` is rejected with -1 and
no mutation. -/
theorem sys_mmap_invalid_port_witness :
    (4096 : Nat) ≠ 0 ∧
    ((9 : Nat) &&& 0xFFFFFFFFFFFFFFF8 ≠ 0 ∨ (9 : Nat) &&& 0x7 = 0) ∧
    sys_mmap 0 4096 9 { ptes := [] } = (-1, ({ ptes := [] } : MemorySet)) :=
  ⟨by decide, by decide,
    sys_mmap_invalid_port 0 4096 9 { ptes := [] } (by decide) (Or.inl (by decide))⟩

/-- Claim C4: for every page-aligned `start`, `len > 0` and valid `port`, if any page
of `[start, start + len)` is already validly mapped then `sys_mmap` returns -1 and the
address space is unchanged (no partial mutation); otherwise it inserts one area
covering the page-rounded range with the permissions derived from `port`
(bit 0 → Readable, bit 1 → Writable, bit 2 → Executable, UserAccessible always
implied, per `portToPerm`) and returns 0 — after which every page of the page-rounded
range translates to a valid entry carrying those permissions. -/
theorem sys_mmap_prescan_insert (start len port : Nat) (memory_set : MemorySet)
    (ha : vaAligned start) (hlen : 0 < len)
    (hp1 : port &&& 0xFFFFFFFFFFFFFFF8 = 0) (hp2 : port &&& 0x7 ≠ 0) :
    ((∃ vpn ∈ scanPages start len, MappedValid memory_set vpn) →
        sys_mmap start len port memory_set = (-1, memory_set)) ∧
    ((∀ vpn ∈ scanPages start len, ¬ MappedValid memory_set vpn) →
        sys_mmap start len port memory_set =
          (0, memory_set.insert_area start (start + len) (portToPerm port)) ∧
        ∀ vpn, vaFloor start ≤ vpn → vpn < vaCeil (start + len) →
          (memory_set.insert_area start (start + len) (portToPerm port)).translate vpn =
            some { valid := true, perm := portToPerm port }) := by
  have hlen' : ¬ len = 0 := Nat.pos_iff_ne_zero.mp hlen
  have hnc : ¬ (port &&& 0xFFFFFFFFFFFFFFF8 ≠ 0 ∨ port &&& 0x7 = 0 ∨ ¬ vaAligned start) := by
    rintro (h | h | h)
    · exact h hp1
    · exact hp2 h
    · exact h ha
  constructor
  · intro hex
    rw [sys_mmap, if_neg hlen', if_neg hnc, if_pos ((anyMappedValid_iff _ _).mpr hex)]
  · intro hall
    have hfalse : anyMappedValid memory_set (scanPages start len) = false := by
      rw [← Bool.not_eq_true, anyMappedValid_iff]
      rintro ⟨vpn, hmem, hmv⟩
      exact hall vpn hmem hmv
    refine ⟨?_, ?_⟩
    · rw [sys_mmap, if_neg hlen', if_neg hnc, if_neg (by simp [hfalse])]
    · intro vpn h1 h2
      exact translate_insert_area memory_set start (start + len) vpn (portToPerm port) h1 h2

/-- Claim C4 witness: on the empty address space, `sys_mmap(4096, 4096, 3)` succeeds,
inserting the one-page area for page 1 with R/W permissions, and page 1 then
translates to a valid entry. -/
theorem sys_mmap_prescan_insert_witness :
    sys_mmap 4096 4096 3 { ptes := [] } =
      (0, MemorySet.insert_area { ptes := [] } 4096 (4096 + 4096) (portToPerm 3)) ∧
    (MemorySet.insert_area { ptes := [] } 4096 (4096 + 4096) (portToPerm 3)).translate 1 =
      some { valid := true, perm := portToPerm 3 } := by
  have hall : ∀ vpn ∈ scanPages 4096 4096, ¬ MappedValid { ptes := [] } vpn := by
    intro vpn _ hmv
    rcases hmv with ⟨pte, hpte, _⟩
    exact absurd hpte (by simp [MemorySet.translate, List.lookup])
  have h :=
    (sys_mmap_prescan_insert 4096 4096 3 { ptes := [] } (by decide) (by decide)
      (by decide) (by decide)).2 hall
  exact ⟨h.1, h.2 1 (by decide) (by decide)⟩

/-- Claim C5: `sys_munmap(start, len)` returns -1 with zero mutation of the address
space when `start` is not page-aligned or some page of `[start, start + len)` is
unmapped or invalid (the pre-scan completes before any mutation); otherwise it unmaps
every page-table entry of the range (each scanned page translates to nothing
afterwards) and returns 0. -/
theorem sys_munmap_prescan_unmap (start len : Nat) (memory_set : MemorySet) :
    ((¬ vaAligned start ∨ ∃ vpn ∈ scanPages start len, ¬ MappedValid memory_set vpn) →
        sys_munmap start len memory_set = (-1, memory_set)) ∧
    (vaAligned start →
      (∀ vpn ∈ scanPages start len, MappedValid memory_set vpn) →
        sys_munmap start len memory_set =
          (0, memory_set.shrink_area start (start + len)) ∧
        ∀ vpn ∈ scanPages start len,
          (memory_set.shrink_area start (start + len)).translate vpn = none) := by
  constructor
  · rintro (h | hex)
    · rw [sys_munmap, if_pos h]
    · by_cases ha : vaAligned start
      · rw [sys_munmap, if_neg (not_not_intro ha),
          if_pos ((anyNotMappedValid_iff _ _).mpr hex)]
      · rw [sys_munmap, if_pos ha]
  · intro ha hall
    have hfalse : anyNotMappedValid memory_set (scanPages start len) = false := by
      rw [← Bool.not_eq_true, anyNotMappedValid_iff]
      rintro ⟨vpn, hmem, hbad⟩
      exact hbad (hall vpn hmem)
    refine ⟨by rw [sys_munmap, if_neg (not_not_intro ha), if_neg (by simp [hfalse])], ?_⟩
    intro vpn hmem
    rw [scanPages_eq_range' start len ha, List.mem_range'_1] at hmem
    exact translate_shrink_area memory_set start (start + len) vpn hmem.1 (by omega)

/-- Claim C5 witness: with exactly page 1 validly mapped, `sys_munmap(4096, 4096)`
succeeds and page 1 translates to nothing afterwards. -/
theorem sys_munmap_prescan_unmap_witness :
    sys_munmap 4096 4096 { ptes := [(1, ⟨true, ⟨true, false, false, true⟩⟩)] } =
      (0, MemorySet.shrink_area { ptes := [(1, ⟨true, ⟨true, false, false, true⟩⟩)] }
            4096 (4096 + 4096)) ∧
    (MemorySet.shrink_area { ptes := [(1, ⟨true, ⟨true, false, false, true⟩⟩)] }
        4096 (4096 + 4096)).translate 1 = none := by
  have hsp : scanPages 4096 4096 = [1] := by decide
  have hall : ∀ vpn ∈ scanPages 4096 4096,
      MappedValid { ptes := [(1, ⟨true, ⟨true, false, false, true⟩⟩)] } vpn := by
    rw [hsp]
    intro vpn hmem
    rw [List.mem_singleton] at hmem
    subst hmem
    exact ⟨⟨true, ⟨true, false, false, true⟩⟩, rfl, rfl⟩
  have h := (sys_munmap_prescan_unmap 4096 4096 _).2 (by decide) hall
  exact ⟨h.1, h.2 1 (by rw [hsp]; exact List.mem_singleton.mpr rfl)⟩

/-- A child process as `sys_waitpid` observes it: its pid, whether its status is
Zombie (`inner.is_zombie()`), and its stored exit code. -/
structure ChildTask where
  pid : Nat
  is_zombie : Bool
  exit_code : Int
deriving Repr, DecidableEq

/-- The per-child match test of `sys_waitpid`: `pid == -1 || pid as usize == p.getpid()`.
The `as usize` cast of the `isize` argument is its value modulo `2^64`. -/
def pidMatches (pid : Int) (p : ChildTask) : Bool :=
  decide (pid = -1) || decide ((pid % (2 ^ 64 : Int)).toNat = p.pid)

/-- The match test of `sys_waitpid` as a proposition: `pid == -1` matches any child,
otherwise the `usize` cast of `pid` must equal the child's pid. -/
def Matches (pid : Int) (p : ChildTask) : Prop :=
  pid = -1 ∨ (pid % (2 ^ 64 : Int)).toNat = p.pid

theorem pidMatches_iff (pid : Int) (p : ChildTask) :
    pidMatches pid p = true ↔ Matches pid p := by
  rw [pidMatches, Matches]
  simp

/-- The `children.iter().enumerate().find(...)` followed by `children.remove(idx)` of
`sys_waitpid`: locate the first child satisfying the predicate and remove it, keeping
the rest of the list in order. -/
def findRemove (p : ChildTask → Bool) : List ChildTask → Option (ChildTask × List ChildTask)
  | [] => none
  | c :: rest =>
    if p c then some (c, rest)
    else
      match findRemove p rest with
      | some (z, rest') => some (z, c :: rest')
      | none => none

/-- `sys_waitpid(pid, exit_code_ptr)` acting on the caller's children list. The result
triple is (syscall return value, children list after the call, the exit code written
through the translated `exit_code_ptr`, if any). -/
def sys_waitpid (pid : Int) (children : List ChildTask) :
    Int × List ChildTask × Option Int :=
  if ¬ children.any (fun p => pidMatches pid p) then (-1, children, none)
  else
    match findRemove (fun p => p.is_zombie && pidMatches pid p) children with
    | some (child, rest) => ((child.pid : Int), rest, some child.exit_code)
    | none => (-2, children, none)

theorem findRemove_none (p : ChildTask → Bool) (l : List ChildTask)
    (h : ∀ c ∈ l, p c = false) : findRemove p l = none := by
  induction l with
  | nil => rfl
  | cons c rest ih =>
    rw [findRemove, if_neg (by simp [h c (List.mem_cons_self c rest)])]
    rw [ih (fun d hd => h d (List.mem_cons_of_mem c hd))]

theorem findRemove_first (p : ChildTask → Bool) (z : ChildTask) (l2 : List ChildTask)
    (hz : p z = true) :
    ∀ l1 : List ChildTask, (∀ c ∈ l1, p c = false) →
      findRemove p (l1 ++ z :: l2) = some (z, l1 ++ l2) := by
  intro l1
  induction l1 with
  | nil =>
    intro _
    rw [List.nil_append, findRemove, if_pos hz, List.nil_append]
  | cons c rest ih =>
    intro h
    rw [List.cons_append, findRemove,
      if_neg (by simp [h c (List.mem_cons_self c rest)]),
      ih (fun d hd => h d (List.mem_cons_of_mem c hd))]
    rw [List.cons_append]

/-- Claim C6: for every `pid` argument, `sys_waitpid(pid, exit_code_ptr)` returns -1
when no child of the caller matches `pid` (`pid == -1` matches any child); returns -2
when a matching child exists but no matching child is a Zombie; and otherwise removes
the first matching Zombie child from the caller's children collection, writes that
child's exit code through the translated pointer, and returns that child's pid. In
the first two cases the children list is unchanged and nothing is written. -/
theorem sys_waitpid_cases (pid : Int) (children : List ChildTask) :
    ((∀ p ∈ children, ¬ Matches pid p) →
        sys_waitpid pid children = (-1, children, none)) ∧
    ((∃ p ∈ children, Matches pid p) →
      (∀ p ∈ children, Matches pid p → p.is_zombie = false) →
        sys_waitpid pid children = (-2, children, none)) ∧
    (∀ (l1 : List ChildTask) (z : ChildTask) (l2 : List ChildTask),
      children = l1 ++ z :: l2 →
      (∀ p ∈ l1, ¬ (Matches pid p ∧ p.is_zombie = true)) →
      Matches pid z → z.is_zombie = true →
        sys_waitpid pid children = ((z.pid : Int), l1 ++ l2, some z.exit_code)) := by
  refine ⟨?_, ?_, ?_⟩
  · intro hnone
    have hany : ¬ children.any (fun p => pidMatches pid p) = true := by
      rw [List.any_eq_true]
      rintro ⟨p, hmem, hp⟩
      exact hnone p hmem ((pidMatches_iff pid p).mp hp)
    rw [sys_waitpid, if_pos hany]
  · rintro ⟨p, hmem, hp⟩ hnozombie
    have hany : ¬ ¬ children.any (fun q => pidMatches pid q) = true := by
      rw [List.any_eq_true]
      exact not_not_intro ⟨p, hmem, (pidMatches_iff pid p).mpr hp⟩
    rw [sys_waitpid, if_neg hany,
      findRemove_none _ children (fun c hc => ?_)]
    by_cases hm : pidMatches pid c = true
    · rw [hnozombie c hc ((pidMatches_iff pid c).mp hm)]
      rfl
    · rw [Bool.not_eq_true] at hm
      rw [hm, Bool.and_false]
  · intro l1 z l2 hchildren hfirst hmz hzz
    subst hchildren
    have hany : ¬ ¬ (l1 ++ z :: l2).any (fun q => pidMatches pid q) = true := by
      rw [List.any_eq_true]
      refine not_not_intro ⟨z, ?_, (pidMatches_iff pid z).mpr hmz⟩
      exact List.mem_append.mpr (Or.inr (List.mem_cons_self z l2))
    rw [sys_waitpid, if_neg hany,
      findRemove_first _ z l2 (by rw [hzz, (pidMatches_iff pid z).mpr hmz]; rfl) l1
        (fun c hc => ?_)]
    by_cases hm : pidMatches pid c = true
    · have : c.is_zombie = false := by
        rcases Bool.eq_false_or_eq_true c.is_zombie with h | h
        · exact absurd ⟨(pidMatches_iff pid c).mp hm, h⟩ (hfirst c hc)
        · exact h
      rw [this]
      rfl
    · rw [Bool.not_eq_true] at hm
      rw [hm, Bool.and_false]

/-- Claim C6 witness: with a single zombie child of pid 5 and exit code 7,
`waitpid(-1)` reaps it: returns 5, removes it, and writes 7. -/
theorem sys_waitpid_cases_witness :
    sys_waitpid (-1) [⟨5, true, 7⟩] = (5, [], some 7) :=
  (sys_waitpid_cases (-1) [⟨5, true, 7⟩]).2.2 [] ⟨5, true, 7⟩ [] rfl
    (fun c hc => absurd hc (List.not_mem_nil c)) (Or.inl rfl) rfl

/-- The scheduling fields of the current task's inner state that `sys_set_priority`
mutated: `prio` and `pass`. -/
structure SchedFields where
  prio : Nat
  pass : Nat
deriving Repr, DecidableEq

/-- `sys_set_priority(_prio)` acting on the current task's scheduling fields. For
`_prio ≥ 2` the `as usize` cast of the `isize` argument is `_prio.toNat`. The result
is (syscall return value, scheduling fields after the call). -/
def sys_set_priority (prio : Int) (st : SchedFields) : Int × SchedFields :=
  if prio < 2 then (-1, st)
  else (prio, { prio := prio.toNat, pass := BIG_STRIDE / prio.toNat })

/-- Claim C7: for every `prio` argument, `sys_set_priority(prio)` returns -1 and
leaves the current task's stored priority and pass unchanged when `prio < 2`;
otherwise it sets the current task's priority to `prio`, recomputes
`pass = BIG_STRIDE / prio`, and returns `prio`. -/
theorem sys_set_priority_cases (prio : Int) (st : SchedFields) :
    (prio < 2 → sys_set_priority prio st = (-1, st)) ∧
    (2 ≤ prio →
      sys_set_priority prio st =
        (prio, { prio := prio.toNat, pass := BIG_STRIDE / prio.toNat })) := by
  constructor
  · intro h
    rw [sys_set_priority, if_pos h]
  · intro h
    rw [sys_set_priority, if_neg (not_lt_of_le h)]

/-- Claim C7 witness: `set_priority(1)` is rejected with no mutation, and
`set_priority(4)` stores priority 4 with pass `BIG_STRIDE / 4` and returns 4. -/
theorem sys_set_priority_cases_witness :
    sys_set_priority 1 ⟨16, BIG_STRIDE / 16⟩ = (-1, ⟨16, BIG_STRIDE / 16⟩) ∧
    sys_set_priority 4 ⟨16, BIG_STRIDE / 16⟩ = (4, ⟨4, BIG_STRIDE / 4⟩) :=
  ⟨(sys_set_priority_cases 1 ⟨16, BIG_STRIDE / 16⟩).1 (by decide),
   (sys_set_priority_cases 4 ⟨16, BIG_STRIDE / 16⟩).2 (by decide)⟩

/-- Modelled from the spec (§4.2 fork): `TaskControlBlock::fork` duplicates the
caller's state (in particular the saved trap context snapshot and the scheduling
fields), assigns a new pid, links the child to the caller, and does not enqueue the
child into the scheduler — enqueuing is the syscall layer's responsibility. The
address-space copy carries no observable state in this model. -/
def TaskControlBlock.fork (parent : TaskControlBlock) (newPid : Nat) : TaskControlBlock :=
  { parent with pid := newPid }

/-- `sys_fork()` acting on the current task and the scheduler's ready queue: forks the
child, overwrites the child's saved register slot 10 (the syscall return-value slot)
with 0, enqueues the child via `add_task`, and returns the child's pid. The fresh pid
handed out by the pid allocator is the explicit argument `newPid`. The result is
(syscall return value, ready queue after the call). -/
def sys_fork (parent : TaskControlBlock) (newPid : Nat) (ready_queue : List TaskControlBlock) :
    Int × List TaskControlBlock :=
  let new_task := parent.fork newPid
  let new_pid := new_task.pid
  let new_task2 := { new_task with trap_cx := new_task.trap_cx.set 10 0 }
  ((new_pid : Int), TaskManager.add ready_queue new_task2)

/-- Claim C8: after `sys_fork`, the child's saved return-value register (trap-context
register slot 10) is 0, the child is enqueued at the back of the scheduler's ready
collection by this call, and the call returns the child's pid to the parent. -/
theorem sys_fork_child (parent : TaskControlBlock) (newPid : Nat)
    (ready_queue : List TaskControlBlock) (hlen : parent.trap_cx.length = 32) :
    sys_fork parent newPid ready_queue =
      ((newPid : Int),
       ready_queue ++ [{ parent with pid := newPid, trap_cx := parent.trap_cx.set 10 0 }]) ∧
    ({ parent with pid := newPid, trap_cx := parent.trap_cx.set 10 0 } :
        TaskControlBlock).trap_cx[10]? = some 0 ∧
    ({ parent with pid := newPid, trap_cx := parent.trap_cx.set 10 0 } :
        TaskControlBlock).pid = newPid := by
  refine ⟨rfl, ?_, rfl⟩
  show (parent.trap_cx.set 10 0)[10]? = some 0
  rw [List.getElem?_set_self (by rw [hlen]; decide)]

/-- Claim C8 witness: forking a concrete parent with a 32-slot trap context enqueues a
child whose register slot 10 is 0 and returns the child's pid 2. -/
theorem sys_fork_child_witness :
    sys_fork ⟨1, 0, 16, BIG_STRIDE / 16, List.replicate 32 7⟩ 2 [] =
      ((2 : Int),
       [] ++ [{ pid := 2, stride := 0, prio := 16, pass := BIG_STRIDE / 16,
                trap_cx := (List.replicate 32 7).set 10 0 }]) ∧
    ({ pid := 2, stride := 0, prio := 16, pass := BIG_STRIDE / 16,
       trap_cx := (List.replicate 32 7).set 10 0 } : TaskControlBlock).trap_cx[10]? =
      some 0 ∧
    ({ pid := 2, stride := 0, prio := 16, pass := BIG_STRIDE / 16,
       trap_cx := (List.replicate 32 7).set 10 0 } : TaskControlBlock).pid = 2 :=
  sys_fork_child ⟨1, 0, 16, BIG_STRIDE / 16, List.replicate 32 7⟩ 2 [] (by decide)

/-- The `TaskStatus` of a task in its life cycle. -/
inductive TaskStatus where
  | Ready
  | Running
  | Zombie
deriving Repr, DecidableEq

/-- The `TaskInfo` structure `sys_task_info` writes through the translated user
pointer: the task status, the per-syscall invocation counter table
(`[u32; MAX_SYSCALL_NUM]`), and the elapsed run time in milliseconds. -/
structure TaskInfo where
  status : TaskStatus
  syscall_times : List Nat
  time : Nat
deriving Repr, DecidableEq

/-- The inner state of the current task that `sys_task_info` reads: its status, its
per-syscall invocation counter table (`get_syscall_times`), and its first-scheduled
timestamp in milliseconds (`get_start_time`, modelled from the spec: the `task`
module's accessor for the timestamp recorded when the task was first scheduled). -/
structure TaskInner where
  status : TaskStatus
  syscall_times : List Nat
  start_time_ms : Nat
deriving Repr, DecidableEq

/-- `sys_task_info(_ti)` with the current microsecond clock reading `now_us`
(`get_time_us`). The result is (syscall return value, the `TaskInfo` written through
the translated pointer). The status field is written as the literal
`TaskStatus::Running`, and the time field as `get_time_us() / 1000 -
task_inner.get_start_time()`. -/
def sys_task_info (now_us : Nat) (task_inner : TaskInner) : Int × TaskInfo :=
  (0,
   { status := TaskStatus.Running
     syscall_times := task_inner.syscall_times
     time := now_us / 1000 - task_inner.start_time_ms })

/-- Claim C9: `sys_task_info` writes, through the translated user pointer, the current
task's status (the current task is the running one, so its status is `Running`, which
is what the code writes), its per-syscall invocation counter table, and its elapsed
run time in milliseconds since it was first scheduled (current milliseconds minus the
first-scheduled timestamp), and returns 0. -/
theorem sys_task_info_writes (now_us : Nat) (task_inner : TaskInner)
    (hrun : task_inner.status = TaskStatus.Running) :
    sys_task_info now_us task_inner =
      (0,
       { status := task_inner.status
         syscall_times := task_inner.syscall_times
         time := now_us / 1000 - task_inner.start_time_ms }) := by
  rw [sys_task_info, hrun]

/-- Claim C9 witness: on a concrete running task, `sys_task_info` returns 0 and writes
the status, the counter table and the elapsed milliseconds. -/
theorem sys_task_info_writes_witness :
    sys_task_info 12000 ⟨TaskStatus.Running, [1, 2, 3], 5⟩ =
      (0, { status := TaskStatus.Running, syscall_times := [1, 2, 3],
            time := 12000 / 1000 - 5 }) :=
  sys_task_info_writes 12000 ⟨TaskStatus.Running, [1, 2, 3], 5⟩ rfl
